import Mathlib

/-!
Verification of the font-installer program (src/main.rs).

The program is shallowly embedded: paths are modelled as a parent-directory
component list plus a final file name, the filesystem as an explicit state
record threaded through every operation, and machine side effects (rename,
copy, remove, chmod, directory creation) as pure state transformers.
Definitions follow the Rust source function by function and keep its names.
-/

/-- Error kinds of std io Error that the program can produce or inspect
(io ErrorKind in the source). -/
inductive ErrKind
  | notFound
  | permissionDenied
  | invalidData
  | unexpectedEof
  | invalidInput
  | other
deriving DecidableEq

/-- A std io Error: its kind together with the raw OS error code
(raw_os_error in the source), when one is attached. -/
structure IOErr where
  kind : ErrKind
  osCode : Option Nat
deriving DecidableEq

/-- is_perm_denied from the source: kind PermissionDenied, or raw OS code 13. -/
def is_perm_denied (e : IOErr) : Bool :=
  decide (e.kind = ErrKind.permissionDenied) || decide (e.osCode = some 13)

/-- FontKind from the source. -/
inductive FontKind
  | Otf
  | Ttf
deriving DecidableEq

/-- A filesystem path: the components of the parent directory, then the final
component.  PathBuf from a single string keeps that string as the final
component; join pushes one component, mirroring the Rust PathBuf uses in the
source (every join argument there is a single component or a fixed literal). -/
structure FsPath where
  dir : List String
  base : String
deriving DecidableEq

/-- PathBuf::from on a string. -/
def pathFrom (s : String) : FsPath := ⟨[], s⟩

/-- Path::join with a single further component. -/
def FsPath.join (p : FsPath) (s : String) : FsPath := ⟨p.dir ++ [p.base], s⟩

/-- Rendering of a path, components separated by a slash (Path::display). -/
def FsPath.render (p : FsPath) : String :=
  String.intercalate "/" (p.dir ++ [p.base])

/-- Path::file_name: the final component, unless it is empty or the parent
marker, in which case Rust returns None. -/
def FsPath.fileName (p : FsPath) : Option String :=
  if p.base = "" ∨ p.base = ".." then none else some p.base

/-- Index of the last dot in a character list, when there is one. -/
def lastDotIdx : List Char → Option Nat
  | [] => none
  | c :: rest =>
    match lastDotIdx rest with
    | some i => some (i + 1)
    | none => if c = '.' then some 0 else none

/-- Split a file name into stem and extension following Rust Path semantics:
no dot, or a single leading dot, means no extension; otherwise the stem is
everything before the last dot and the extension everything after it. -/
def splitStemExt (name : String) : String × Option String :=
  match lastDotIdx name.data with
  | none => (name, none)
  | some 0 => (name, none)
  | some (i + 1) => (⟨name.data.take (i + 1)⟩, some ⟨name.data.drop (i + 2)⟩)

/-- Path::file_stem of the final component. -/
def FsPath.fileStem (p : FsPath) : Option String :=
  p.fileName.map fun n => (splitStemExt n).1

/-- Path extension: extension of the final component (Rust Path). -/
def FsPath.extPart (p : FsPath) : Option String :=
  p.fileName.bind fun n => (splitStemExt n).2

/-- ASCII lowercase of one character (to_lowercase in the source, restricted
to the ASCII letters that occur in extensions). -/
def lowerChar (c : Char) : Char :=
  if 65 ≤ c.toNat ∧ c.toNat ≤ 90 then Char.ofNat (c.toNat + 32) else c

/-- Lowercase of a string, character by character. -/
def lowerStr (s : String) : String := ⟨s.data.map lowerChar⟩

/-- The decimal digit characters. -/
def digitChar : Nat → Char
  | 0 => '0'
  | 1 => '1'
  | 2 => '2'
  | 3 => '3'
  | 4 => '4'
  | 5 => '5'
  | 6 => '6'
  | 7 => '7'
  | 8 => '8'
  | 9 => '9'
  | _ => '?'

/-- Little-endian decimal digits computed with explicit fuel, so that the
definition reduces by rfl on concrete inputs. -/
def digitsFuel : Nat → Nat → List Nat
  | _, 0 => []
  | 0, _ + 1 => []
  | fuel + 1, n + 1 => (n + 1) % 10 :: digitsFuel fuel ((n + 1) / 10)

/-- Decimal rendering of a natural number, as the format macro in the source
renders a loop counter. -/
def natToStr (n : Nat) : String :=
  if n = 0 then "0" else ⟨((digitsFuel n n).map digitChar).reverse⟩

theorem digitsFuel_eq_digits :
    ∀ fuel n : Nat, n ≤ fuel → digitsFuel fuel n = Nat.digits 10 n := by
  intro fuel
  induction fuel with
  | zero =>
    intro n hn
    interval_cases n
    simp [digitsFuel]
  | succ f ih =>
    intro n hn
    match n with
    | 0 => simp [digitsFuel]
    | m + 1 =>
      rw [Nat.digits_def' (by norm_num : (1:ℕ) < 10) (Nat.succ_pos m)]
      show (m + 1) % 10 :: digitsFuel f ((m + 1) / 10) = _
      have hlt : (m + 1) / 10 < m + 1 := Nat.div_lt_self (Nat.succ_pos m) (by norm_num)
      rw [ih ((m + 1) / 10) (by omega)]

theorem digitChar_injOn :
    ∀ d : Nat, d < 10 → ∀ e : Nat, e < 10 → digitChar d = digitChar e → d = e := by
  decide

theorem map_digitChar_inj :
    ∀ l₁ l₂ : List Nat, (∀ d ∈ l₁, d < 10) → (∀ d ∈ l₂, d < 10) →
      l₁.map digitChar = l₂.map digitChar → l₁ = l₂ := by
  intro l₁
  induction l₁ with
  | nil =>
    intro l₂ _ _ h
    cases l₂ with
    | nil => rfl
    | cons b t => simp at h
  | cons a t ih =>
    intro l₂ h₁ h₂ h
    cases l₂ with
    | nil => simp at h
    | cons b u =>
      simp only [List.map_cons, List.cons.injEq] at h
      have hab : a = b :=
        digitChar_injOn a (h₁ a (List.mem_cons_self a t)) b
          (h₂ b (List.mem_cons_self b u)) h.1
      have htu : t = u :=
        ih u (fun d hd => h₁ d (List.mem_cons_of_mem a hd))
          (fun d hd => h₂ d (List.mem_cons_of_mem b hd)) h.2
      rw [hab, htu]

theorem natToStr_data (n : Nat) (hn : n ≠ 0) :
    (natToStr n).data = ((Nat.digits 10 n).map digitChar).reverse := by
  unfold natToStr
  rw [if_neg hn, digitsFuel_eq_digits n n (le_refl n)]

theorem natToStr_eq_zeroStr (n : Nat) (hn : n ≠ 0) : natToStr n ≠ "0" := by
  intro h
  have hd : (natToStr n).data = ['0'] := by rw [h]
  rw [natToStr_data n hn] at hd
  have hmap : (Nat.digits 10 n).map digitChar = ['0'] := by
    have := congrArg List.reverse hd
    simpa using this
  have hlen := congrArg List.length hmap
  simp at hlen
  obtain ⟨d, hdig⟩ := List.length_eq_one.mp hlen
  rw [hdig] at hmap
  simp at hmap
  have hdlt : d < 10 :=
    Nat.digits_lt_base (by norm_num) (by rw [hdig]; exact List.mem_singleton_self d)
  have hd0 : d = 0 := digitChar_injOn d hdlt 0 (by norm_num) (by simpa using hmap)
  have : n = 0 := by
    have hof := Nat.ofDigits_digits 10 n
    rw [hdig, hd0] at hof
    simpa [Nat.ofDigits] using hof.symm
  exact hn this

theorem natToStr_injective : Function.Injective natToStr := by
  intro m n h
  by_cases hm : m = 0 <;> by_cases hn : n = 0
  · rw [hm, hn]
  · exfalso
    rw [hm] at h
    exact natToStr_eq_zeroStr n hn h.symm
  · exfalso
    rw [hn] at h
    exact natToStr_eq_zeroStr m hm h
  · have hd : (natToStr m).data = (natToStr n).data := by rw [h]
    rw [natToStr_data m hm, natToStr_data n hn] at hd
    have hmap := List.reverse_injective hd
    have hdig : Nat.digits 10 m = Nat.digits 10 n :=
      map_digitChar_inj _ _
        (fun d hdm => Nat.digits_lt_base (by norm_num) hdm)
        (fun d hdn => Nat.digits_lt_base (by norm_num) hdn) hmap
    calc m = Nat.ofDigits 10 (Nat.digits 10 m) := (Nat.ofDigits_digits 10 m).symm
      _ = Nat.ofDigits 10 (Nat.digits 10 n) := by rw [hdig]
      _ = n := Nat.ofDigits_digits 10 n

theorem natToStr_data_ne_nil (n : Nat) : (natToStr n).data ≠ [] := by
  by_cases hn : n = 0
  · rw [hn]
    decide
  · rw [natToStr_data n hn]
    simp [Nat.digits_ne_nil_iff_ne_zero.mpr hn]

/-- The candidate file name built in the loop of unique_path: the stem, a
dash, the counter, and the original extension when there is one. -/
def candidate_name (stem ext : String) (i : Nat) : String :=
  if ext = "" then stem ++ "-" ++ natToStr i
  else stem ++ "-" ++ natToStr i ++ "." ++ ext

/-- Path::with_file_name: replace the final component. -/
def with_file_name (p : FsPath) (s : String) : FsPath := ⟨p.dir, s⟩

/-- The i-th candidate destination tried by unique_path, with the stem
defaulting to "font" and the extension to the empty string exactly as the
unwrap_or calls in the source do. -/
def unique_candidate (dest : FsPath) (i : Nat) : FsPath :=
  with_file_name dest (candidate_name (dest.fileStem.getD "font") (dest.extPart.getD "") i)

/-- The unbounded search loop of unique_path, embedded with explicit fuel:
starting at counter i, return the first candidate that is not among the
existing paths.  The fuel never runs out when it is larger than the number
of existing paths (proved below); the out-of-fuel value is arbitrary. -/
def searchFree (fs : List FsPath) (dest : FsPath) : Nat → Nat → FsPath
  | 0, i => unique_candidate dest i
  | fuel + 1, i =>
    if unique_candidate dest i ∈ fs then searchFree fs dest fuel (i + 1)
    else unique_candidate dest i

/-- unique_path from the source: the proposed destination itself when no
existing path collides with it, otherwise the first free numbered candidate,
counting from 1.  The filesystem is the list of existing paths. -/
def unique_path (fs : List FsPath) (dest : FsPath) : FsPath :=
  if dest ∈ fs then searchFree fs dest (fs.length + 1) 1 else dest

theorem append_mid_right_inj (a b x y : String) (h : a ++ x ++ b = a ++ y ++ b) :
    x = y := by
  have hd := congrArg String.data h
  simp only [String.data_append] at hd
  have h₁ := List.append_cancel_right hd
  have h₂ := List.append_cancel_left h₁
  exact String.ext h₂

theorem append_right_str_inj (a x y : String) (h : a ++ x = a ++ y) : x = y := by
  have hd := congrArg String.data h
  simp only [String.data_append] at hd
  exact String.ext (List.append_cancel_left hd)

theorem candidate_name_injective (stem ext : String) :
    Function.Injective (candidate_name stem ext) := by
  intro i j h
  unfold candidate_name at h
  by_cases he : ext = ""
  · rw [if_pos he, if_pos he] at h
    exact natToStr_injective (append_right_str_inj (stem ++ "-") _ _ h)
  · rw [if_neg he, if_neg he] at h
    have hd := congrArg String.data h
    simp only [String.data_append] at hd
    have h₁ := List.append_cancel_right hd
    have h₂ := List.append_cancel_right h₁
    have h₃ := List.append_cancel_left h₂
    exact natToStr_injective (String.ext h₃)

theorem unique_candidate_injective (dest : FsPath) :
    Function.Injective (unique_candidate dest) := by
  intro i j h
  unfold unique_candidate with_file_name at h
  rw [FsPath.mk.injEq] at h
  exact candidate_name_injective _ _ h.2

theorem exists_free_candidate (fs : List FsPath) (dest : FsPath) :
    ∃ i, 1 ≤ i ∧ i ≤ fs.length + 1 ∧ unique_candidate dest i ∉ fs := by
  by_contra hall
  push_neg at hall
  have hinj : Set.InjOn (unique_candidate dest) (Finset.Icc 1 (fs.length + 1)) :=
    fun i _ j _ hij => unique_candidate_injective dest hij
  have hmaps : ∀ i ∈ Finset.Icc 1 (fs.length + 1), unique_candidate dest i ∈ fs.toFinset := by
    intro i hi
    rw [Finset.mem_Icc] at hi
    exact List.mem_toFinset.mpr (hall i hi.1 hi.2)
  have hcard := Finset.card_le_card_of_injOn (unique_candidate dest) hmaps hinj
  rw [Nat.card_Icc] at hcard
  have hle := fs.toFinset_card_le
  omega

theorem searchFree_not_mem (fs : List FsPath) (dest : FsPath) :
    ∀ fuel start, (∃ i, start ≤ i ∧ i < start + fuel ∧ unique_candidate dest i ∉ fs) →
      searchFree fs dest fuel start ∉ fs := by
  intro fuel
  induction fuel with
  | zero =>
    intro start h
    obtain ⟨i, h₁, h₂, _⟩ := h
    omega
  | succ f ih =>
    intro start h
    obtain ⟨i, h₁, h₂, h₃⟩ := h
    show (if unique_candidate dest start ∈ fs then searchFree fs dest f (start + 1)
      else unique_candidate dest start) ∉ fs
    by_cases hs : unique_candidate dest start ∈ fs
    · rw [if_pos hs]
      apply ih (start + 1)
      refine ⟨i, ?_, by omega, h₃⟩
      rcases Nat.eq_or_lt_of_le h₁ with rfl | hlt
      · exact absurd hs h₃
      · omega
    · rw [if_neg hs]
      exact hs

theorem searchFree_eq_first_free (fs : List FsPath) (dest : FsPath) :
    ∀ fuel start i, start ≤ i → i - start < fuel →
      (∀ j, start ≤ j → j < i → unique_candidate dest j ∈ fs) →
      unique_candidate dest i ∉ fs →
      searchFree fs dest fuel start = unique_candidate dest i := by
  intro fuel
  induction fuel with
  | zero =>
    intro start i h₁ h₂ _ _
    omega
  | succ f ih =>
    intro start i h₁ h₂ hall hfree
    show (if unique_candidate dest start ∈ fs then searchFree fs dest f (start + 1)
      else unique_candidate dest start) = unique_candidate dest i
    rcases Nat.eq_or_lt_of_le h₁ with rfl | hlt
    · rw [if_neg hfree]
    · rw [if_pos (hall start (le_refl start) hlt)]
      exact ih (start + 1) i hlt (by omega) (fun j hj₁ hj₂ => hall j (by omega) hj₂) hfree

/-- The OTTO magic, as bytes. -/
def ottoMagic : List Nat := [79, 84, 84, 79]

/-- The big-endian 0x00010000 TrueType magic. -/
def v1Magic : List Nat := [0, 1, 0, 0]

/-- The ASCII true magic. -/
def trueMagic : List Nat := [116, 114, 117, 101]

/-- The ttcf collection magic. -/
def ttcfMagic : List Nat := [116, 116, 99, 102]

/-- The magic-byte fallback of detect_kind: open the file (None means the
open failed with NotFound), read exactly 4 bytes (fewer available is an
UnexpectedEof I/O error from read_exact), then compare signatures; an
unknown signature is the distinct InvalidData error of the source. -/
def sniff_magic (bytes : Option (List Nat)) : Except IOErr FontKind :=
  match bytes with
  | none => .error ⟨.notFound, some 2⟩
  | some bs =>
    if bs.length < 4 then .error ⟨.unexpectedEof, none⟩
    else
      let magic := bs.take 4
      if magic = ottoMagic then .ok .Otf
      else if magic = v1Magic ∨ magic = trueMagic ∨ magic = ttcfMagic then .ok .Ttf
      else .error ⟨.invalidData, none⟩

/-- detect_kind from the source: first the case-insensitive extension check
with early return, then the magic-byte fallback.  The file contents are
supplied through a read oracle so that the extension path provably never
consults them. -/
def detect_kind (readF : FsPath → Option (List Nat)) (path : FsPath) :
    Except IOErr FontKind :=
  match path.extPart.map lowerStr with
  | some e =>
    if e = "otf" then .ok .Otf
    else if e = "ttf" ∨ e = "ttc" then .ok .Ttf
    else sniff_magic (readF path)
  | none => sniff_magic (readF path)

/-- One file of the modelled filesystem: its path, contents, and POSIX mode
bits. -/
structure FileEnt where
  path : FsPath
  content : List Nat
  mode : Nat
deriving DecidableEq

/-- The state of the world the program acts on: regular files, directories,
the device each path lives on (for the cross-device rename failure), and an
oracle injecting OS-level rename failures such as permission denial. -/
structure Sys where
  files : List FileEnt
  dirs : List FsPath
  dev : FsPath → Nat
  renameErr : FsPath → FsPath → Option IOErr

/-- The file entry at a path, when the path names a regular file. -/
def lookupFile (sys : Sys) (p : FsPath) : Option FileEnt :=
  sys.files.find? fun f => decide (f.path = p)

/-- The read oracle for detect_kind: contents of the regular file at a path. -/
def readOracle (sys : Sys) : FsPath → Option (List Nat) :=
  fun p => (lookupFile sys p).map (·.content)

/-- Every path that exists on the filesystem (regular files and directories);
Path::exists is membership in this list. -/
def allPaths (sys : Sys) : List FsPath :=
  sys.files.map (·.path) ++ sys.dirs

/-- Path::exists against the modelled filesystem. -/
def existsFS (sys : Sys) (p : FsPath) : Bool := decide (p ∈ allPaths sys)

/-- fs::rename: an injected OS failure if the oracle provides one; NotFound
when the source file is missing; the EXDEV error (raw OS code 18) when the
two paths live on different devices; otherwise the file entry moves to the
destination, replacing any file already there. -/
def fsRename (sys : Sys) (src dst : FsPath) : Except IOErr Sys :=
  match sys.renameErr src dst with
  | some e => .error e
  | none =>
    match lookupFile sys src with
    | none => .error ⟨.notFound, some 2⟩
    | some ent =>
      if sys.dev src = sys.dev dst then
        .ok { sys with
          files := ⟨dst, ent.content, ent.mode⟩ ::
            sys.files.filter fun f => decide (f.path ≠ src ∧ f.path ≠ dst) }
      else .error ⟨.other, some 18⟩

/-- fs::copy: duplicate contents and permission bits at the destination,
leaving the source in place. -/
def fsCopy (sys : Sys) (src dst : FsPath) : Except IOErr Sys :=
  match lookupFile sys src with
  | none => .error ⟨.notFound, some 2⟩
  | some ent =>
    .ok { sys with
      files := ⟨dst, ent.content, ent.mode⟩ ::
        sys.files.filter fun f => decide (f.path ≠ dst) }

/-- fs::remove_file. -/
def fsRemove (sys : Sys) (p : FsPath) : Except IOErr Sys :=
  match lookupFile sys p with
  | none => .error ⟨.notFound, some 2⟩
  | some _ =>
    .ok { sys with files := sys.files.filter fun f => decide (f.path ≠ p) }

/-- move_across_fs from the source: try rename; only on the raw OS error 18
(EXDEV) fall back to copy followed by remove of the source; any other rename
error propagates unchanged.  The returned state is the world after the call. -/
def move_across_fs (sys : Sys) (src dst : FsPath) : Except IOErr Unit × Sys :=
  match fsRename sys src dst with
  | .ok sys2 => (.ok (), sys2)
  | .error e =>
    if e.osCode = some 18 then
      match fsCopy sys src dst with
      | .error e2 => (.error e2, sys)
      | .ok sysC =>
        match fsRemove sysC src with
        | .error e3 => (.error e3, sysC)
        | .ok sysD => (.ok (), sysD)
    else (.error e, sys)

/-- set_permissions644 from the source: stat the file, then set mode 0o644,
that is 420. -/
def set_permissions644 (sys : Sys) (p : FsPath) : Except IOErr Sys :=
  match lookupFile sys p with
  | none => .error ⟨.notFound, some 2⟩
  | some ent =>
    .ok { sys with
      files := ⟨p, ent.content, 420⟩ ::
        sys.files.filter fun f => decide (f.path ≠ p) }

/-- fs::create_dir_all, modelled as always succeeding: the directory is
recorded as existing.  (Permission failures of this call reach main as an
IOErr and are covered by the rename-failure oracle in the claims about the
escalation protocol.) -/
def fsCreateDirAll (sys : Sys) (d : FsPath) : Sys :=
  { sys with dirs := d :: sys.dirs }

/-- refresh_font_cache invokes the external fc-cache subprocess; it never
touches the filesystem and never fails the installation, so it is the
identity on the world state. -/
def refresh_font_cache (sys : Sys) : Sys := sys

/-- user_fonts_base from the source: XDG_DATA_HOME/fonts when that variable
is set, else HOME/.local/share/fonts, else the relative .local/share/fonts. -/
def user_fonts_base (env : String → Option String) : FsPath :=
  match env "XDG_DATA_HOME" with
  | some xdg => (pathFrom xdg).join "fonts"
  | none =>
    match env "HOME" with
    | some home => (pathFrom home).join ".local/share/fonts"
    | none => pathFrom ".local/share/fonts"

/-- do_install from the source: detect the kind, pick the base directory and
the OTF or TTF subdirectory, create it, resolve a unique destination, move
the file, set permissions 644, refresh the cache. -/
def do_install (env : String → Option String) (sys : Sys) (user_mode : Bool)
    (src_path : FsPath) : Except IOErr Unit × Sys :=
  match detect_kind (readOracle sys) src_path with
  | .error e => (.error e, sys)
  | .ok kind =>
    let base_dir := if user_mode then user_fonts_base env else pathFrom "/usr/share/fonts"
    let subdir := match kind with
      | .Otf => "OTF"
      | .Ttf => "TTF"
    let dest_dir := base_dir.join subdir
    let sys1 := fsCreateDirAll sys dest_dir
    match src_path.fileName with
    | none => (.error ⟨.invalidInput, none⟩, sys1)
    | some file_name =>
      let dest_path := unique_path (allPaths sys1) (dest_dir.join file_name)
      match move_across_fs sys1 src_path dest_path with
      | (.error e, sys2) => (.error e, sys2)
      | (.ok _, sys2) =>
        match set_permissions644 sys2 dest_path with
        | .error e => (.error e, sys2)
        | .ok sys3 => (.ok (), refresh_font_cache sys3)

/-- What a run of the process ends as: the usage message on stderr with exit
code 2, a plain exit code, or the replacement of the process by the sudo
re-exec of the same executable with the original arguments. -/
inductive MainOut
  | usageExit2
  | exitCode (code : Nat)
  | sudoReexec
deriving DecidableEq

/-- The environment the re-exec child receives: the parent environment with
the elevation marker set to 1 (the .env call on the sudo Command). -/
def childEnv (env : String → Option String) : String → Option String :=
  fun k => if k = "INSTALL_FONT_ELEVATED" then some "1" else env k

/-- escalate_and_reexec from the source: with the elevation marker already
set it fails with PermissionDenied instead of escalating again; otherwise
the process re-execs itself under sudo with the marker set in the child. -/
def escalate_and_reexec (env : String → Option String) : Except IOErr MainOut :=
  if (env "INSTALL_FONT_ELEVATED").isSome then .error ⟨.permissionDenied, none⟩
  else .ok .sudoReexec

/-- user_mode of main: whether any argument equals the --user literal. -/
def user_mode_of (args : List String) : Bool :=
  args.any fun a => decide (a = "--user")

/-- src_path of main: the first argument, whatever it is. -/
def src_path_of (args : List String) : FsPath := pathFrom (args.headD "")

/-- The tail of main after the existence check: run do_install and map its
outcome, intercepting a permission-denied error of a system-mode install via
escalate_and_reexec; every other error exits with code 1 (an Err return from
the Rust main). -/
def install_outcome (env : String → Option String) (sys : Sys) (user_mode : Bool)
    (src_path : FsPath) : MainOut × Sys :=
  match do_install env sys user_mode src_path with
  | (.ok _, sys2) => (.exitCode 0, sys2)
  | (.error e, sys2) =>
    if is_perm_denied e && !user_mode then
      match escalate_and_reexec env with
      | .error _ => (.exitCode 1, sys2)
      | .ok o => (o, sys2)
    else (.exitCode 1, sys2)

/-- main from the source (named main_fn because Lean reserves main for an
entry point): usage exit 2 on zero or more than two arguments; exit 1 when
the source path does not exist or is not a regular file; then the install
with the escalation protocol. -/
def main_fn (args : List String) (env : String → Option String) (sys : Sys) :
    MainOut × Sys :=
  if args.isEmpty || decide (args.length > 2) then (.usageExit2, sys)
  else
    let user_mode := user_mode_of args
    let src_path := src_path_of args
    if !existsFS sys src_path || !(lookupFile sys src_path).isSome then
      (.exitCode 1, sys)
    else install_outcome env sys user_mode src_path

theorem existsFS_of_lookup (sys : Sys) (p : FsPath)
    (h : (lookupFile sys p).isSome) : existsFS sys p = true := by
  rw [Option.isSome_iff_exists] at h
  obtain ⟨f, hf⟩ := h
  have hmem := List.mem_of_find?_eq_some hf
  have hpred := List.find?_some hf
  simp at hpred
  unfold existsFS allPaths
  rw [decide_eq_true_iff]
  apply List.mem_append_left
  rw [← hpred]
  exact List.mem_map_of_mem (·.path) hmem

theorem find?_filter_path_ne (l : List FileEnt) (p : FsPath) (q : FileEnt → Bool)
    (hq : ∀ f, q f = true → f.path ≠ p) :
    (l.filter q).find? (fun f => decide (f.path = p)) = none := by
  rw [List.find?_eq_none]
  intro f hf
  have hmem := (List.mem_filter.mp hf).2
  simp only [decide_eq_true_iff]
  exact hq f hmem

theorem main_fn_run (args : List String) (env : String → Option String) (sys : Sys)
    (a0 : String) (rest : List String) (hargs : args = a0 :: rest)
    (hlen : args.length ≤ 2) (hsrc : (lookupFile sys (src_path_of args)).isSome) :
    main_fn args env sys
      = install_outcome env sys (user_mode_of args) (src_path_of args) := by
  subst hargs
  unfold main_fn
  have hempty : (a0 :: rest).isEmpty = false := rfl
  have hgt : ¬((a0 :: rest).length > 2) := by omega
  rw [hempty, decide_eq_false hgt]
  simp only [Bool.or_false, Bool.false_or, if_false, Bool.false_eq_true]
  rw [existsFS_of_lookup sys _ hsrc, hsrc]
  simp

theorem detect_kind_falls_to_sniff (readF : FsPath → Option (List Nat)) (path : FsPath)
    (hext : path.extPart.map lowerStr = none ∨
      ∃ e, path.extPart.map lowerStr = some e ∧ e ≠ "otf" ∧ e ≠ "ttf" ∧ e ≠ "ttc") :
    detect_kind readF path = sniff_magic (readF path) := by
  unfold detect_kind
  rcases hext with h | ⟨e, he, h1, h2, h3⟩
  · rw [h]
  · rw [he]
    simp only [if_neg h1, if_neg (by tauto : ¬(e = "ttf" ∨ e = "ttc"))]

theorem sniff_magic_take4 (bs : List Nat) :
    sniff_magic (some bs) = sniff_magic (some (bs.take 4)) := by
  have hlen : (bs.take 4).length = min 4 bs.length := List.length_take 4 bs
  by_cases h4 : bs.length < 4
  · have h4t : (bs.take 4).length < 4 := by omega
    simp only [sniff_magic, if_pos h4, if_pos h4t]
  · have h4t : ¬(bs.take 4).length < 4 := by omega
    simp only [sniff_magic, if_neg h4, if_neg h4t, List.take_take, Nat.min_self]

/-- C5: when the file name carries an extension that lowercases to otf, the
detector returns OpenType, and when it lowercases to ttf or ttc it returns
TrueType, in both cases for every possible state of the file contents: the
read oracle is universally quantified, so the result is reached without
opening or reading the file. -/
theorem detect_kind_by_extension (readF : FsPath → Option (List Nat)) (path : FsPath)
    (e : String) (hext : path.extPart = some e) :
    (lowerStr e = "otf" → detect_kind readF path = .ok .Otf) ∧
    (lowerStr e = "ttf" ∨ lowerStr e = "ttc" → detect_kind readF path = .ok .Ttf) := by
  have hmap : Option.map lowerStr (some e) = some (lowerStr e) := rfl
  constructor
  · intro h
    unfold detect_kind
    rw [hext, hmap, h]
    simp
  · intro h
    unfold detect_kind
    rcases h with h | h <;> rw [hext, hmap, h] <;> simp

/-- Witness for C5 at concrete inputs: a path with extension OTF maps to
OpenType and one with extension TtC maps to TrueType, with a read oracle
that cannot read any file at all. -/
theorem detect_kind_by_extension_witness :
    detect_kind (fun _ => none) (pathFrom "A.OTF") = .ok .Otf ∧
    detect_kind (fun _ => none) (pathFrom "B.TtC") = .ok .Ttf :=
  ⟨(detect_kind_by_extension (fun _ => none) (pathFrom "A.OTF") "OTF" rfl).1 (by decide),
   (detect_kind_by_extension (fun _ => none) (pathFrom "B.TtC") "TtC" rfl).2
     (Or.inr (by decide))⟩

/-- C6: with an absent or unrecognized extension, detection reduces to
sniffing the file contents, and the sniff depends only on the first 4 bytes:
OTTO yields OpenType; 00 01 00 00, true and ttcf yield TrueType; any other
4-byte prefix yields the distinct InvalidData error; a file shorter than
4 bytes yields the UnexpectedEof I/O error of read_exact, a different error
kind than InvalidData. -/
theorem detect_kind_sniff_spec (readF : FsPath → Option (List Nat)) (path : FsPath)
    (bytes : List Nat)
    (hext : path.extPart.map lowerStr = none ∨
      ∃ e, path.extPart.map lowerStr = some e ∧ e ≠ "otf" ∧ e ≠ "ttf" ∧ e ≠ "ttc")
    (hread : readF path = some bytes) :
    detect_kind readF path = sniff_magic (some bytes) ∧
    sniff_magic (some bytes) = sniff_magic (some (bytes.take 4)) ∧
    (bytes.take 4 = ottoMagic → detect_kind readF path = .ok .Otf) ∧
    (bytes.take 4 = v1Magic ∨ bytes.take 4 = trueMagic ∨ bytes.take 4 = ttcfMagic →
      detect_kind readF path = .ok .Ttf) ∧
    (4 ≤ bytes.length → bytes.take 4 ≠ ottoMagic → bytes.take 4 ≠ v1Magic →
      bytes.take 4 ≠ trueMagic → bytes.take 4 ≠ ttcfMagic →
      detect_kind readF path = .error ⟨.invalidData, none⟩) ∧
    (bytes.length < 4 →
      detect_kind readF path = .error ⟨.unexpectedEof, none⟩ ∧
      ErrKind.unexpectedEof ≠ ErrKind.invalidData) := by
  have hfall : detect_kind readF path = sniff_magic (some bytes) := by
    rw [detect_kind_falls_to_sniff readF path hext, hread]
  refine ⟨hfall, sniff_magic_take4 bytes, ?_, ?_, ?_, ?_⟩
  · intro h
    have hlen : ¬bytes.length < 4 := by
      have := congrArg List.length h
      simp [ottoMagic] at this
      omega
    rw [hfall]
    simp only [sniff_magic, if_neg hlen, if_pos h]
  · intro h
    have hlen : ¬bytes.length < 4 := by
      rcases h with h | h | h <;>
        · have := congrArg List.length h
          simp [v1Magic, trueMagic, ttcfMagic] at this
          omega
    have hnotto : bytes.take 4 ≠ ottoMagic := by
      rcases h with h | h | h <;> rw [h] <;> decide
    rw [hfall]
    simp only [sniff_magic, if_neg hlen, if_neg hnotto, if_pos h]
  · intro hlen h1 h2 h3 h4
    rw [hfall]
    simp only [sniff_magic, if_neg (by omega : ¬bytes.length < 4), if_neg h1,
      if_neg (by tauto : ¬(bytes.take 4 = v1Magic ∨ bytes.take 4 = trueMagic ∨
        bytes.take 4 = ttcfMagic))]
  · intro hlen
    refine ⟨?_, by decide⟩
    rw [hfall]
    simp only [sniff_magic, if_pos hlen]

/-- Witness for C6 at concrete inputs: a file named data.bin whose contents
start with OTTO is OpenType, one starting with ttcf is TrueType, a 4-byte
garbage prefix is the InvalidData failure, and a 2-byte file is the
UnexpectedEof failure. -/
theorem detect_kind_sniff_spec_witness :
    detect_kind (fun _ => some [79, 84, 84, 79, 1, 2]) (pathFrom "data.bin") = .ok .Otf ∧
    detect_kind (fun _ => some [116, 116, 99, 102]) (pathFrom "data.bin") = .ok .Ttf ∧
    detect_kind (fun _ => some [9, 9, 9, 9]) (pathFrom "data.bin")
      = .error ⟨.invalidData, none⟩ ∧
    detect_kind (fun _ => some [0, 1]) (pathFrom "data.bin")
      = .error ⟨.unexpectedEof, none⟩ := by
  have hext : (pathFrom "data.bin").extPart.map lowerStr = none ∨
      ∃ e, (pathFrom "data.bin").extPart.map lowerStr = some e ∧
        e ≠ "otf" ∧ e ≠ "ttf" ∧ e ≠ "ttc" :=
    Or.inr ⟨"bin", rfl, by decide, by decide, by decide⟩
  refine ⟨?_, ?_, ?_, ?_⟩
  · exact (detect_kind_sniff_spec _ _ [79, 84, 84, 79, 1, 2] hext rfl).2.2.1 (by decide)
  · exact (detect_kind_sniff_spec _ _ [116, 116, 99, 102] hext rfl).2.2.2.1
      (Or.inr (Or.inr (by decide)))
  · exact (detect_kind_sniff_spec _ _ [9, 9, 9, 9] hext rfl).2.2.2.2.1
      (by decide) (by decide) (by decide) (by decide) (by decide)
  · exact ((detect_kind_sniff_spec _ _ [0, 1] hext rfl).2.2.2.2.2 (by decide)).1

/-- C2: move_across_fs first attempts the rename and adopts its result when
it succeeds; a rename failure that is not the cross-device raw OS error 18
propagates unchanged with the filesystem untouched; exactly the cross-device
failure switches to the copy-then-delete-source fallback; and after any
successful move, by either path, no file exists at the source path. -/
theorem move_across_fs_spec (sys : Sys) (src dst : FsPath) (hne : src ≠ dst) :
    (∀ sysR, fsRename sys src dst = .ok sysR →
      move_across_fs sys src dst = (.ok (), sysR)) ∧
    (∀ e, fsRename sys src dst = .error e → e.osCode ≠ some 18 →
      move_across_fs sys src dst = (.error e, sys)) ∧
    (∀ e, fsRename sys src dst = .error e → e.osCode = some 18 →
      move_across_fs sys src dst =
        (match fsCopy sys src dst with
         | .error e2 => (.error e2, sys)
         | .ok sysC =>
           match fsRemove sysC src with
           | .error e3 => (.error e3, sysC)
           | .ok sysD => (.ok (), sysD))) ∧
    (∀ sys2, move_across_fs sys src dst = (.ok (), sys2) →
      lookupFile sys2 src = none) := by
  refine ⟨?_, ?_, ?_, ?_⟩
  · intro sysR h
    unfold move_across_fs
    rw [h]
  · intro e h hcode
    unfold move_across_fs
    rw [h]
    simp only [if_neg hcode]
  · intro e h hcode
    unfold move_across_fs
    rw [h]
    simp only [if_pos hcode]
  · intro sys2 h
    unfold move_across_fs at h
    cases hR : fsRename sys src dst with
    | ok sysR =>
      rw [hR] at h
      simp only [Prod.mk.injEq] at h
      obtain ⟨-, h2⟩ := h
      subst h2
      unfold fsRename at hR
      cases hre : sys.renameErr src dst with
      | some e => simp [hre] at hR
      | none =>
        simp only [hre] at hR
        cases hlk : lookupFile sys src with
        | none => simp [hlk] at hR
        | some ent =>
          simp only [hlk] at hR
          by_cases hdev : sys.dev src = sys.dev dst
          · rw [if_pos hdev] at hR
            have hfiles := congrArg Sys.files (Except.ok.inj hR)
            unfold lookupFile
            rw [← hfiles]
            show List.find? _ (_ :: _) = none
            rw [List.find?_cons_of_neg _ (by simpa using Ne.symm hne)]
            exact find?_filter_path_ne _ src _ (by intro f hf; simp at hf; exact hf.1)
          · rw [if_neg hdev] at hR
            exact absurd hR (by simp)
    | error e =>
      simp only [hR] at h
      by_cases hcode : e.osCode = some 18
      · rw [if_pos hcode] at h
        cases hC : fsCopy sys src dst with
        | error e2 => simp [hC] at h
        | ok sysC =>
          simp only [hC] at h
          cases hD : fsRemove sysC src with
          | error e3 => simp [hD] at h
          | ok sysD =>
            simp only [hD] at h
            simp only [Prod.mk.injEq] at h
            obtain ⟨-, h2⟩ := h
            subst h2
            unfold fsRemove at hD
            cases hlk : lookupFile sysC src with
            | none => simp [hlk] at hD
            | some ent =>
              simp only [hlk] at hD
              have hfiles := congrArg Sys.files (Except.ok.inj hD)
              unfold lookupFile
              rw [← hfiles]
              exact find?_filter_path_ne _ src _ (by intro f hf; simpa using hf)
      · rw [if_neg hcode] at h
        simp at h

/-- Witness for C2 at a concrete state: the single file a.ttf lives on device
0 and the destination directory on device 1, so the rename fails with the
raw OS error 18 and the fallback copies then deletes; afterwards the source
path no longer carries a file. -/
theorem move_across_fs_spec_witness :
    move_across_fs
        ⟨[⟨pathFrom "a.ttf", [1, 2], 420⟩], [],
          fun p => if p = pathFrom "a.ttf" then 0 else 1, fun _ _ => none⟩
        (pathFrom "a.ttf") ⟨["dst"], "a.ttf"⟩
      = (.ok (), ⟨[⟨⟨["dst"], "a.ttf"⟩, [1, 2], 420⟩], [],
          fun p => if p = pathFrom "a.ttf" then 0 else 1, fun _ _ => none⟩) ∧
    lookupFile
        (move_across_fs
          ⟨[⟨pathFrom "a.ttf", [1, 2], 420⟩], [],
            fun p => if p = pathFrom "a.ttf" then 0 else 1, fun _ _ => none⟩
          (pathFrom "a.ttf") ⟨["dst"], "a.ttf"⟩).2
        (pathFrom "a.ttf") = none := by
  have h := move_across_fs_spec
    ⟨[⟨pathFrom "a.ttf", [1, 2], 420⟩], [],
      fun p => if p = pathFrom "a.ttf" then 0 else 1, fun _ _ => none⟩
    (pathFrom "a.ttf") ⟨["dst"], "a.ttf"⟩ (by decide)
  have hmove : move_across_fs
      ⟨[⟨pathFrom "a.ttf", [1, 2], 420⟩], [],
        fun p => if p = pathFrom "a.ttf" then 0 else 1, fun _ _ => none⟩
      (pathFrom "a.ttf") ⟨["dst"], "a.ttf"⟩
      = (.ok (), ⟨[⟨⟨["dst"], "a.ttf"⟩, [1, 2], 420⟩], [],
          fun p => if p = pathFrom "a.ttf" then 0 else 1, fun _ _ => none⟩) := by
    rw [h.2.2.1 ⟨.other, some 18⟩ rfl rfl]
    rfl
  refine ⟨hmove, ?_⟩
  rw [hmove]
  exact h.2.2.2 _ hmove

theorem unique_candidate_font_ttf (d : List String) (i : Nat) :
    unique_candidate ⟨d, "font.ttf"⟩ i
      = ⟨d, "font" ++ "-" ++ natToStr i ++ "." ++ "ttf"⟩ := rfl

theorem cand_ne_font_ttf (i : Nat) :
    ("font" ++ "-" ++ natToStr i ++ "." ++ "ttf" : String) ≠ "font.ttf" := by
  intro h
  have hd := congrArg (fun s : String => s.data.length) h
  simp only [String.data_append, List.length_append] at hd
  have h1 : ("font" : String).data.length = 4 := rfl
  have h2 : ("-" : String).data.length = 1 := rfl
  have h3 : ("." : String).data.length = 1 := rfl
  have h4 : ("ttf" : String).data.length = 3 := rfl
  have h5 : ("font.ttf" : String).data.length = 8 := rfl
  have h6 : 0 < (natToStr i).data.length :=
    List.length_pos.mpr (natToStr_data_ne_nil i)
  rw [h1, h2, h3, h4, h5] at hd
  omega

theorem cand_font_ttf_inj (i j : Nat)
    (h : ("font" ++ "-" ++ natToStr i ++ "." ++ "ttf" : String)
      = "font" ++ "-" ++ natToStr j ++ "." ++ "ttf") : i = j :=
  candidate_name_injective "font" "ttf" h

theorem mem_scenario_iff (N : Nat) (d : List String) (i : Nat) (hi : 1 ≤ i) :
    (⟨d, "font" ++ "-" ++ natToStr i ++ "." ++ "ttf"⟩ : FsPath) ∈
      ((⟨d, "font.ttf"⟩ : FsPath) :: (List.range (N - 1)).map
        (fun j => (⟨d, "font" ++ "-" ++ natToStr (j + 1) ++ "." ++ "ttf"⟩ : FsPath)))
    ↔ i ≤ N - 1 := by
  simp only [List.mem_cons, List.mem_map, List.mem_range]
  constructor
  · rintro (h | ⟨j, hj, hjeq⟩)
    · exact absurd (congrArg FsPath.base h) (cand_ne_font_ttf i)
    · have hbase := congrArg FsPath.base hjeq
      have hij : j + 1 = i := cand_font_ttf_inj (j + 1) i hbase
      omega
  · intro h
    right
    refine ⟨i - 1, by omega, ?_⟩
    have : i - 1 + 1 = i := by omega
    rw [this]

theorem unique_path_first_free (fs : List FsPath) (dest : FsPath) :
    ∃ i, 1 ≤ i ∧ i ≤ fs.length + 1 ∧
      (∀ m, fs.length + 1 ≤ m → searchFree fs dest m 1 = unique_candidate dest i) ∧
      unique_candidate dest i ∉ fs ∧
      (∀ j, 1 ≤ j → j < i → unique_candidate dest j ∈ fs) := by
  obtain ⟨w, hw1, hw2, hw3⟩ := exists_free_candidate fs dest
  have hPw : unique_candidate dest w ∉ fs ∧ 1 ≤ w := ⟨hw3, hw1⟩
  have hP : ∃ i, unique_candidate dest i ∉ fs ∧ 1 ≤ i := ⟨w, hPw⟩
  refine ⟨Nat.find hP, (Nat.find_spec hP).2, le_trans (Nat.find_le hPw) hw2,
    ?_, (Nat.find_spec hP).1, ?_⟩
  · intro m hm
    apply searchFree_eq_first_free fs dest m 1 (Nat.find hP) (Nat.find_spec hP).2
    · have : Nat.find hP ≤ w := Nat.find_le hPw
      omega
    · intro j hj1 hj2
      by_contra hnot
      exact Nat.find_min hP hj2 ⟨hnot, hj1⟩
    · exact (Nat.find_spec hP).1
  · intro j hj1 hj2
    by_contra hnot
    exact Nat.find_min hP hj2 ⟨hnot, hj1⟩

/-- C4: for every finite list of pre-existing paths the suffix search of
unique_path returns a path colliding with none of them; moreover the result
of the search loop is the same under every sufficiently large fuel bound,
so the embedding with fuel list-length plus one computes the value of the
unbounded loop of the source. -/
theorem unique_path_terminates (fs : List FsPath) (dest : FsPath) :
    unique_path fs dest ∉ fs ∧
    (dest ∈ fs → ∀ m, fs.length + 1 ≤ m →
      searchFree fs dest m 1 = searchFree fs dest (fs.length + 1) 1) := by
  constructor
  · unfold unique_path
    by_cases hd : dest ∈ fs
    · rw [if_pos hd]
      obtain ⟨i, h1, h2, h3⟩ := exists_free_candidate fs dest
      exact searchFree_not_mem fs dest _ 1 ⟨i, h1, by omega, h3⟩
    · rw [if_neg hd]
      exact hd
  · intro _ m hm
    obtain ⟨i, -, -, hall, -, -⟩ := unique_path_first_free fs dest
    rw [hall m hm, hall (fs.length + 1) (le_refl _)]

/-- Witness for C4 at a concrete input: with the three files font.ttf,
font-1.ttf and font-2.ttf present, the resolved path is free of collisions. -/
theorem unique_path_terminates_witness :
    unique_path
        [⟨["d"], "font.ttf"⟩, ⟨["d"], "font-1.ttf"⟩, ⟨["d"], "font-2.ttf"⟩]
        ⟨["d"], "font.ttf"⟩
      ∉ [(⟨["d"], "font.ttf"⟩ : FsPath), ⟨["d"], "font-1.ttf"⟩, ⟨["d"], "font-2.ttf"⟩] :=
  (unique_path_terminates
    [⟨["d"], "font.ttf"⟩, ⟨["d"], "font-1.ttf"⟩, ⟨["d"], "font-2.ttf"⟩]
    ⟨["d"], "font.ttf"⟩).1

/-- C3: a proposed destination that collides with no existing path is
returned unchanged; a colliding one resolves to the first numbered candidate
(stem, dash, counter, original extension) free of collisions, counting from
1; and against existing files font.ttf, font-1.ttf through font-(N-1).ttf
the resolution of font.ttf is exactly font-N.ttf. -/
theorem unique_path_spec (fs : List FsPath) (dest : FsPath) :
    (dest ∉ fs → unique_path fs dest = dest) ∧
    (dest ∈ fs → ∃ i, 1 ≤ i ∧ unique_path fs dest = unique_candidate dest i ∧
      unique_candidate dest i ∉ fs ∧
      ∀ j, 1 ≤ j → j < i → unique_candidate dest j ∈ fs) ∧
    (∀ N d, 1 ≤ N →
      unique_path
        ((⟨d, "font.ttf"⟩ : FsPath) :: (List.range (N - 1)).map
          (fun j => (⟨d, "font" ++ "-" ++ natToStr (j + 1) ++ "." ++ "ttf"⟩ : FsPath)))
        ⟨d, "font.ttf"⟩
        = ⟨d, "font" ++ "-" ++ natToStr N ++ "." ++ "ttf"⟩) := by
  refine ⟨?_, ?_, ?_⟩
  · intro hd
    unfold unique_path
    rw [if_neg hd]
  · intro hd
    obtain ⟨i, h1, h2, h3, h4, h5⟩ := unique_path_first_free fs dest
    refine ⟨i, h1, ?_, h4, h5⟩
    unfold unique_path
    rw [if_pos hd]
    exact h3 _ (le_refl _)
  · intro N d hN
    unfold unique_path
    rw [if_pos (List.mem_cons_self _ _)]
    have hlen : ((⟨d, "font.ttf"⟩ : FsPath) :: (List.range (N - 1)).map
        (fun j => (⟨d, "font" ++ "-" ++ natToStr (j + 1) ++ "." ++ "ttf"⟩ : FsPath))).length
        = N := by
      simp only [List.length_cons, List.length_map, List.length_range]
      omega
    rw [← unique_candidate_font_ttf d N]
    apply searchFree_eq_first_free _ _ _ 1 N hN (by omega)
    · intro j hj1 hj2
      rw [unique_candidate_font_ttf]
      rw [mem_scenario_iff N d j hj1]
      omega
    · rw [unique_candidate_font_ttf]
      rw [mem_scenario_iff N d N hN]
      omega

/-- Witness for C3 at concrete inputs: a fresh name is returned unchanged,
and with font.ttf, font-1.ttf, font-2.ttf present (the scenario at N = 3)
the resolution of font.ttf is font-3.ttf. -/
theorem unique_path_spec_witness :
    unique_path [] (⟨["d"], "fresh.otf"⟩ : FsPath) = ⟨["d"], "fresh.otf"⟩ ∧
    unique_path
        [⟨["d"], "font.ttf"⟩, ⟨["d"], "font-1.ttf"⟩, ⟨["d"], "font-2.ttf"⟩]
        ⟨["d"], "font.ttf"⟩
      = ⟨["d"], "font-3.ttf"⟩ := by
  constructor
  · exact (unique_path_spec [] ⟨["d"], "fresh.otf"⟩).1 (by decide)
  · have h := (unique_path_spec
      [⟨["d"], "font.ttf"⟩, ⟨["d"], "font-1.ttf"⟩, ⟨["d"], "font-2.ttf"⟩]
      ⟨["d"], "font.ttf"⟩).2.2 3 ["d"] (by decide)
    have hfs : ((⟨["d"], "font.ttf"⟩ : FsPath) :: (List.range (3 - 1)).map
        (fun j => (⟨["d"], "font" ++ "-" ++ natToStr (j + 1) ++ "." ++ "ttf"⟩ : FsPath)))
        = [⟨["d"], "font.ttf"⟩, ⟨["d"], "font-1.ttf"⟩, ⟨["d"], "font-2.ttf"⟩] := by decide
    have hval : (⟨["d"], "font" ++ "-" ++ natToStr 3 ++ "." ++ "ttf"⟩ : FsPath)
        = ⟨["d"], "font-3.ttf"⟩ := by decide
    rw [hfs, hval] at h
    exact h

/-- C9: with zero arguments, or with three or more, the program prints the
usage text to stderr and exits with code 2 (the usageExit2 outcome models
exactly that eprintln-then-exit block), leaving the filesystem untouched:
the returned state is the input state. -/
theorem main_usage_error (args : List String) (env : String → Option String)
    (sys : Sys) (h : args = [] ∨ 3 ≤ args.length) :
    main_fn args env sys = (.usageExit2, sys) := by
  unfold main_fn
  rcases h with h | h
  · subst h
    simp
  · have hc : (args.isEmpty || decide (args.length > 2)) = true := by
      rw [Bool.or_eq_true, decide_eq_true_iff]
      right
      omega
    rw [hc]
    simp

/-- Witness for C9: the empty argument list and a three-argument list both
end in the usage exit, on a concrete filesystem. -/
theorem main_usage_error_witness :
    main_fn [] (fun _ => none) ⟨[], [], fun _ => 0, fun _ _ => none⟩
      = (.usageExit2, ⟨[], [], fun _ => 0, fun _ _ => none⟩) ∧
    main_fn ["a", "b", "c"] (fun _ => none) ⟨[], [], fun _ => 0, fun _ _ => none⟩
      = (.usageExit2, ⟨[], [], fun _ => 0, fun _ _ => none⟩) :=
  ⟨main_usage_error [] (fun _ => none) _ (Or.inl rfl),
   main_usage_error ["a", "b", "c"] (fun _ => none) _ (Or.inr (by decide))⟩

/-- C10: with one or two arguments the first argument is always the source
path, even when it is the literal string --user; user mode holds exactly
when some argument equals --user; a second argument other than --user
changes nothing (it is silently ignored); and an invocation whose first
argument is --user attempts to install a file literally named --user, in
user mode: it exits with code 1 when no such file exists and otherwise runs
the install of the path --user with the user-mode flag set. -/
theorem arg_parsing_spec :
    (∀ a0 rest, src_path_of (a0 :: rest) = pathFrom a0) ∧
    (∀ args, user_mode_of args = true ↔ "--user" ∈ args) ∧
    (∀ p q env sys, q ≠ "--user" → main_fn [p, q] env sys = main_fn [p] env sys) ∧
    (∀ q env sys, lookupFile sys (pathFrom "--user") = none →
      main_fn ["--user", q] env sys = (.exitCode 1, sys)) ∧
    (∀ q env sys, (lookupFile sys (pathFrom "--user")).isSome →
      main_fn ["--user", q] env sys
        = install_outcome env sys true (pathFrom "--user")) := by
  refine ⟨fun a0 rest => rfl, ?_, ?_, ?_, ?_⟩
  · intro args
    unfold user_mode_of
    rw [List.any_eq_true]
    constructor
    · rintro ⟨x, hx, hdec⟩
      rw [decide_eq_true_iff] at hdec
      rw [← hdec]
      exact hx
    · intro h
      exact ⟨"--user", h, by simp⟩
  · intro p q env sys hq
    have hum : user_mode_of [p, q] = user_mode_of [p] := by
      unfold user_mode_of
      simp [hq]
    unfold main_fn
    rw [hum]
    rfl
  · intro q env sys hlk
    have hsrc : src_path_of ["--user", q] = pathFrom "--user" := rfl
    unfold main_fn
    have hcond : (["--user", q].isEmpty || decide (["--user", q].length > 2)) = false := rfl
    rw [hcond]
    simp only [Bool.false_eq_true, if_false]
    rw [hsrc, hlk]
    simp
  · intro q env sys hsome
    rw [main_fn_run ["--user", q] env sys "--user" [q] rfl (by simp) hsome]
    have hum : user_mode_of ["--user", q] = true := by
      unfold user_mode_of
      simp
    rw [hum]
    rfl

/-- Witness for C10 at concrete inputs: a second argument x is ignored next
to a first argument a.ttf, and the invocation with first argument --user on
an empty filesystem exits with code 1 after treating --user as the source
file name. -/
theorem arg_parsing_spec_witness :
    main_fn ["a.ttf", "x"] (fun _ => none) ⟨[], [], fun _ => 0, fun _ _ => none⟩
      = main_fn ["a.ttf"] (fun _ => none) ⟨[], [], fun _ => 0, fun _ _ => none⟩ ∧
    main_fn ["--user", "x"] (fun _ => none) ⟨[], [], fun _ => 0, fun _ _ => none⟩
      = (.exitCode 1, ⟨[], [], fun _ => 0, fun _ _ => none⟩) :=
  ⟨arg_parsing_spec.2.2.1 "a.ttf" "x" (fun _ => none) _ (by decide),
   arg_parsing_spec.2.2.2.1 "x" (fun _ => none) _ rfl⟩

theorem escalate_marker_set (env : String → Option String)
    (h : (env "INSTALL_FONT_ELEVATED").isSome) :
    escalate_and_reexec env = .error ⟨.permissionDenied, none⟩ := by
  unfold escalate_and_reexec
  rw [if_pos h]

theorem escalate_marker_unset (env : String → Option String)
    (h : env "INSTALL_FONT_ELEVATED" = none) :
    escalate_and_reexec env = .ok .sudoReexec := by
  unfold escalate_and_reexec
  rw [if_neg (by simp [h])]

/-- C1: for a well-formed invocation on an existing source file, the process
replaces itself by the sudo re-exec exactly when the pipeline failed with a
permission-denied error (kind PermissionDenied or raw OS code 13), the
install is system-mode, and the elevation marker variable is unset; when the
marker is already set, a permission-denied system-mode failure ends in exit
code 1 instead of a second escalation; and under the environment handed to
the re-exec child, which carries the marker, no invocation whatsoever can
escalate again, so escalation happens at most once per user invocation. -/
theorem escalation_protocol (args : List String) (env : String → Option String)
    (sys : Sys) (a0 : String) (rest : List String)
    (hargs : args = a0 :: rest) (hlen : args.length ≤ 2)
    (hsrc : (lookupFile sys (src_path_of args)).isSome) :
    ((main_fn args env sys).1 = .sudoReexec ↔
      (∃ e, (do_install env sys (user_mode_of args) (src_path_of args)).1 = .error e ∧
        is_perm_denied e = true) ∧
      user_mode_of args = false ∧ env "INSTALL_FONT_ELEVATED" = none) ∧
    ((env "INSTALL_FONT_ELEVATED").isSome →
      ∀ e, (do_install env sys (user_mode_of args) (src_path_of args)).1 = .error e →
        is_perm_denied e = true → user_mode_of args = false →
        (main_fn args env sys).1 = .exitCode 1) ∧
    (∀ args2 env2 sys2, (main_fn args2 (childEnv env2) sys2).1 ≠ .sudoReexec) := by
  have hrun := main_fn_run args env sys a0 rest hargs hlen hsrc
  refine ⟨?_, ?_, ?_⟩
  · rw [hrun]
    unfold install_outcome
    rcases hdo : do_install env sys (user_mode_of args) (src_path_of args) with ⟨e | u, sys2⟩
    · simp only [hdo]
      cases hpd : is_perm_denied e && !user_mode_of args with
      | true =>
        simp only [if_pos hpd]
        cases hmk : env "INSTALL_FONT_ELEVATED" with
        | none =>
          simp only [escalate_marker_unset env hmk]
          rw [Bool.and_eq_true] at hpd
          obtain ⟨hperm, hnotum⟩ := hpd
          have hum : user_mode_of args = false := by simpa using hnotum
          simp [hperm, hum]
        | some v =>
          simp only [escalate_marker_set env (by rw [hmk]; rfl)]
          simp
      | false =>
        simp only [hpd, Bool.false_eq_true, if_false]
        constructor
        · intro h
          simp at h
        · rintro ⟨⟨e2, he2, hpe2⟩, hum, -⟩
          rw [Except.error.injEq] at he2
          rw [← he2] at hpe2
          rw [hpe2, hum] at hpd
          simp at hpd
    · simp only [hdo]
      simp
  · intro hmk e hdoe hpd hum
    rw [hrun]
    unfold install_outcome
    rcases hdo : do_install env sys (user_mode_of args) (src_path_of args) with ⟨e2 | u, sys2⟩
    · have he : e2 = e := by
        rw [hdo] at hdoe
        simpa using hdoe
      rw [← he] at hpd
      simp only [hdo]
      rw [if_pos (show (is_perm_denied e2 && !user_mode_of args) = true by
        rw [hpd, hum]; rfl)]
      simp [escalate_marker_set env hmk]
    · rw [hdo] at hdoe
      simp at hdoe
  · intro args2 env2 sys2
    unfold main_fn
    cases hg : (args2.isEmpty || decide (args2.length > 2)) with
    | true => simp [hg]
    | false =>
      simp only [hg, Bool.false_eq_true, if_false]
      cases hex : (!existsFS sys2 (src_path_of args2)
          || !(lookupFile sys2 (src_path_of args2)).isSome) with
      | true => simp [hex]
      | false =>
        simp only [hex, Bool.false_eq_true, if_false]
        unfold install_outcome
        rcases hdo : do_install (childEnv env2) sys2 (user_mode_of args2)
            (src_path_of args2) with ⟨e | u, sys3⟩
        · simp only [hdo]
          cases hpd : is_perm_denied e && !user_mode_of args2 with
          | true =>
            simp only [if_pos hpd]
            have hmk : ((childEnv env2) "INSTALL_FONT_ELEVATED").isSome := by
              simp [childEnv]
            simp only [escalate_marker_set _ hmk]
            simp
          | false =>
            simp only [hpd, Bool.false_eq_true, if_false]
            simp
        · simp only [hdo]
          simp

/-- Witness for C1 at a concrete run: installing F.ttf in system mode with
no elevation marker, where the OS denies the rename with raw code 13, ends
in the sudo re-exec. -/
theorem escalation_protocol_witness :
    (main_fn ["F.ttf"] (fun _ => none)
        ⟨[⟨pathFrom "F.ttf", [], 0⟩], [], fun _ => 0,
          fun _ _ => some ⟨.permissionDenied, some 13⟩⟩).1 = .sudoReexec := by
  have h := escalation_protocol ["F.ttf"] (fun _ => none)
    ⟨[⟨pathFrom "F.ttf", [], 0⟩], [], fun _ => 0,
      fun _ _ => some ⟨.permissionDenied, some 13⟩⟩ "F.ttf" [] rfl (by decide) rfl
  exact h.1.mpr ⟨⟨⟨.permissionDenied, some 13⟩, rfl, rfl⟩, rfl, rfl⟩

/-- C7: when detection fails (extension absent or unrecognized, and the
first four bytes match no known signature), the run ends with exit code 1
and the filesystem state is returned exactly as it was: no directory
created, the source file untouched, no destination written. -/
theorem detection_failure_no_mutation (args : List String)
    (env : String → Option String) (sys : Sys) (a0 : String) (rest : List String)
    (bytes : List Nat) (hargs : args = a0 :: rest) (hlen : args.length ≤ 2)
    (hread : readOracle sys (src_path_of args) = some bytes)
    (hext : (src_path_of args).extPart.map lowerStr = none ∨
      ∃ e, (src_path_of args).extPart.map lowerStr = some e ∧
        e ≠ "otf" ∧ e ≠ "ttf" ∧ e ≠ "ttc")
    (hlen4 : 4 ≤ bytes.length)
    (h1 : bytes.take 4 ≠ ottoMagic) (h2 : bytes.take 4 ≠ v1Magic)
    (h3 : bytes.take 4 ≠ trueMagic) (h4 : bytes.take 4 ≠ ttcfMagic) :
    main_fn args env sys = (.exitCode 1, sys) := by
  have hsome : (lookupFile sys (src_path_of args)).isSome := by
    unfold readOracle at hread
    cases hlk : lookupFile sys (src_path_of args) with
    | none => rw [hlk] at hread; simp at hread
    | some f => rfl
  rw [main_fn_run args env sys a0 rest hargs hlen hsome]
  have hdet : detect_kind (readOracle sys) (src_path_of args)
      = .error ⟨.invalidData, none⟩ := by
    rw [detect_kind_falls_to_sniff _ _ hext, hread]
    simp only [sniff_magic, if_neg (show ¬bytes.length < 4 by omega), if_neg h1,
      if_neg (show ¬(bytes.take 4 = v1Magic ∨ bytes.take 4 = trueMagic ∨
        bytes.take 4 = ttcfMagic) by tauto)]
  have hdo : do_install env sys (user_mode_of args) (src_path_of args)
      = (.error ⟨.invalidData, none⟩, sys) := by
    unfold do_install
    simp only [hdet]
  unfold install_outcome
  simp only [hdo]
  simp [is_perm_denied]

/-- Witness for C7 at a concrete run: installing the extensionless file
fontfile with garbage contents 9 9 9 9 exits with code 1 and leaves the
one-file filesystem exactly as it was. -/
theorem detection_failure_no_mutation_witness :
    main_fn ["fontfile"] (fun _ => none)
        ⟨[⟨pathFrom "fontfile", [9, 9, 9, 9], 420⟩], [], fun _ => 0, fun _ _ => none⟩
      = (.exitCode 1,
        ⟨[⟨pathFrom "fontfile", [9, 9, 9, 9], 420⟩], [], fun _ => 0, fun _ _ => none⟩) :=
  detection_failure_no_mutation ["fontfile"] (fun _ => none)
    ⟨[⟨pathFrom "fontfile", [9, 9, 9, 9], 420⟩], [], fun _ => 0, fun _ _ => none⟩
    "fontfile" [] [9, 9, 9, 9] rfl (by decide) rfl (Or.inl rfl)
    (by decide) (by decide) (by decide) (by decide) (by decide)

/-- C8: the user-mode base directory is XDG_DATA_HOME/fonts when that
variable is set, else HOME/.local/share/fonts, else the relative
.local/share/fonts; and the end-to-end user-mode install of Roboto.ttf with
XDG_DATA_HOME equal to /tmp/x on an otherwise empty filesystem exits with
code 0 and leaves exactly one file, at /tmp/x/fonts/TTF/Roboto.ttf, with
mode 420, that is octal 644, rw-r--r--. -/
theorem user_base_and_scenario :
    (∀ env x, env "XDG_DATA_HOME" = some x →
      user_fonts_base env = (pathFrom x).join "fonts") ∧
    (∀ env h, env "XDG_DATA_HOME" = none → env "HOME" = some h →
      user_fonts_base env = (pathFrom h).join ".local/share/fonts") ∧
    (∀ env, env "XDG_DATA_HOME" = none → env "HOME" = none →
      user_fonts_base env = pathFrom ".local/share/fonts") ∧
    (∀ content m,
      (main_fn ["Roboto.ttf", "--user"]
          (fun k => if k = "XDG_DATA_HOME" then some "/tmp/x" else none)
          ⟨[⟨pathFrom "Roboto.ttf", content, m⟩], [], fun _ => 0, fun _ _ => none⟩).1
        = .exitCode 0 ∧
      (main_fn ["Roboto.ttf", "--user"]
          (fun k => if k = "XDG_DATA_HOME" then some "/tmp/x" else none)
          ⟨[⟨pathFrom "Roboto.ttf", content, m⟩], [], fun _ => 0, fun _ _ => none⟩).2.files
        = [⟨⟨["/tmp/x", "fonts", "TTF"], "Roboto.ttf"⟩, content, 420⟩] ∧
      FsPath.render ⟨["/tmp/x", "fonts", "TTF"], "Roboto.ttf"⟩
        = "/tmp/x/fonts/TTF/Roboto.ttf") := by
  refine ⟨?_, ?_, ?_, ?_⟩
  · intro env x h
    unfold user_fonts_base
    simp only [h]
  · intro env h hx hh
    unfold user_fonts_base
    simp only [hx, hh]
  · intro env hx hh
    unfold user_fonts_base
    simp only [hx, hh]
  · intro content m
    exact ⟨rfl, rfl, by decide⟩

/-- Witness for C8 at concrete inputs: the base-directory selection under
the concrete environment XDG_DATA_HOME equal to /tmp/x, and the scenario
with one-byte file contents. -/
theorem user_base_and_scenario_witness :
    user_fonts_base (fun k => if k = "XDG_DATA_HOME" then some "/tmp/x" else none)
      = (pathFrom "/tmp/x").join "fonts" ∧
    (main_fn ["Roboto.ttf", "--user"]
        (fun k => if k = "XDG_DATA_HOME" then some "/tmp/x" else none)
        ⟨[⟨pathFrom "Roboto.ttf", [1], 0⟩], [], fun _ => 0, fun _ _ => none⟩).1
      = .exitCode 0 :=
  ⟨user_base_and_scenario.1 _ "/tmp/x" rfl, (user_base_and_scenario.2.2.2 [1] 0).1⟩
